import Mathlib

/-!
Verification of the FJML neural-network library against its specification.

The definitions below are a shallow embedding, over `ℚ`, of the C++ code in
`src/`.  Machine floating-point numbers are modelled by exact rationals;
the transcendental functions `exp`, `log` and `sqrt` that the code takes
from `<cmath>` are passed as explicit function parameters, so that every
definition stays computable and every theorem states exactly which
property of the numeric function it needs.

Layout of the embedding:
  * `FJML.TensorQ`          — `Tensor` from `src/src/tensor.cpp`
                              (flat row-major buffer plus a shape vector;
                              `data_size[0]`, the stored total element
                              count, is `shape.prod`).
  * elementwise operators   — `Tensor::operator+ - * /` from
                              `src/src/tensor.cpp` (guard: the code
                              compares only `data_size[0]`).
  * `FJML.LinAlg.*`         — the rank-dispatched `matrix_multiply`
                              branches of `src/src/linalg.cpp`.
  * `FJML.Layers.*`         — `Dense::apply` / `Dense::backward` from
                              `src/src/dense.cpp`, `Softmax::apply` from
                              `src/src/softmax.cpp`.
  * `FJML.Optimizers.*`     — `Adam` from `src/src/adam.cpp` and
                              `src/include/FJML/optimizers.h`.
  * `FJML.Loss.*`           — `src/src/loss.cpp`.
  * `FJML.MLP*`             — `MLP::run` / `MLP::calc_loss` from
                              `src/src/mlp.cpp`.
Definitions whose names start with `spec` are written from the
specification's wording, for comparison with the code-side definitions.
-/

namespace FJML

/-- `Tensor` from `src/src/tensor.cpp`: a shape vector and a flat
row-major data buffer.  The C++ object caches `data_size`, with
`data_size[0] = product of shape`; we recompute it as `size` below. -/
structure TensorQ where
  shape : List ℕ
  data : List ℚ
deriving DecidableEq

/-- `data_size[0]` of `src/src/tensor.cpp`: the total element count
derived from the shape. -/
def TensorQ.size (t : TensorQ) : ℕ := t.shape.prod

/-- `Tensor::operator+` (`src/src/tensor.cpp:366`): the guard compares
only `data_size[0]` of the two operands (the exception text says
"Cannot add tensors with different shapes" but no shape comparison is
made); the result takes the left operand's shape. -/
def tensorAdd (a b : TensorQ) : Option TensorQ :=
  if a.size ≠ b.size then none
  else some ⟨a.shape, List.zipWith (· + ·) a.data b.data⟩

/-- `Tensor::operator-` (`src/src/tensor.cpp`), same guard as `+`. -/
def tensorSub (a b : TensorQ) : Option TensorQ :=
  if a.size ≠ b.size then none
  else some ⟨a.shape, List.zipWith (· - ·) a.data b.data⟩

/-- `Tensor::operator*` (`src/src/tensor.cpp`), elementwise, same guard. -/
def tensorMul (a b : TensorQ) : Option TensorQ :=
  if a.size ≠ b.size then none
  else some ⟨a.shape, List.zipWith (· * ·) a.data b.data⟩

/-- `Tensor::operator/` (`src/src/tensor.cpp`), elementwise, same guard. -/
def tensorDiv (a b : TensorQ) : Option TensorQ :=
  if a.size ≠ b.size then none
  else some ⟨a.shape, List.zipWith (· / ·) a.data b.data⟩

/-- Scalar multiplication `operator*(float, Tensor)` from
`src/src/tensor.cpp`. -/
def scalarMulT (c : ℚ) (t : TensorQ) : TensorQ :=
  ⟨t.shape, t.data.map (fun x => c * x)⟩

/-- Scalar addition `Tensor::operator+(float)` from `src/src/tensor.cpp`. -/
def scalarAddT (t : TensorQ) (c : ℚ) : TensorQ :=
  ⟨t.shape, t.data.map (fun x => x + c)⟩

/-- Scalar division `Tensor::operator/(float)` from `src/src/tensor.cpp`. -/
def scalarDivT (t : TensorQ) (c : ℚ) : TensorQ :=
  ⟨t.shape, t.data.map (fun x => x / c)⟩

/-- `Tensor::apply_function` from `src/src/tensor.cpp`: elementwise map. -/
def tensorMap (f : ℚ → ℚ) (t : TensorQ) : TensorQ :=
  ⟨t.shape, t.data.map f⟩

/-- `Activations::Activation` from `src/src/activations.cpp`: a name, a
scalar function and its derivative, applied elementwise. -/
structure ActivationQ where
  name : String
  func : ℚ → ℚ
  deriv : ℚ → ℚ

/-- `Activations::relu` from `src/src/activations.cpp`:
`x > 0 ? x : 0`, derivative `x > 0 ? 1 : 0`. -/
def reluQ : ActivationQ :=
  ⟨"relu", fun x => if 0 < x then x else 0, fun x => if 0 < x then 1 else 0⟩

/-- `Activations::linear` from `src/src/activations.cpp`. -/
def linearQ : ActivationQ := ⟨"linear", fun x => x, fun _ => 1⟩

/-- The names of the entries of `Activations::activations`
(`src/src/activations.cpp:104`), in declaration order. -/
def activationNames : List String :=
  ["sigmoid", "tanh", "relu", "leaky relu", "linear", "swish"]

namespace LinAlg

/-- A rank-1 tensor's data buffer. -/
abbrev Vec := List ℚ

/-- A rank-2 tensor as its list of rows (row-major buffer of
`src/src/tensor.cpp`, grouped by rows). -/
abbrev Mat := List (List ℚ)

/-- Elementwise vector addition (the `+=` accumulation loops of
`src/src/linalg.cpp` and `src/src/dense.cpp`). -/
def addVec (a b : Vec) : Vec := List.zipWith (· + ·) a b

/-- Multiplying every entry of a vector by a scalar. -/
def scaleVec (c : ℚ) (v : Vec) : Vec := v.map (fun x => c * x)

/-- The all-zero vector: a freshly constructed rank-1 `Tensor`. -/
def zeroVec (n : ℕ) : Vec := List.replicate n (0 : ℚ)

/-- The all-zero matrix: a freshly constructed rank-2 `Tensor`. -/
def zeroMat (r c : ℕ) : Mat := List.replicate r (zeroVec c)

/-- Elementwise matrix addition. -/
def matAdd (A B : Mat) : Mat := List.zipWith addVec A B

/-- The vector·matrix branch of `LinAlg::matrix_multiply`
(`src/src/linalg.cpp`, `a.dim()==1 && b.dim()==2`): the result starts as
zeros of length `b.shape[1]` and row `j` of `b`, scaled by `a[j]`, is
accumulated into it. -/
def vecMatMul (a : Vec) (B : Mat) : Vec :=
  (List.zipWith scaleVec a B).foldl addVec (zeroVec (B.headD []).length)

/-- The matrix·vector branch of `LinAlg::matrix_multiply`
(`src/src/linalg.cpp`, `a.dim()==2 && b.dim()==1`):
`result[i] = Σ_j a[i][j]·v[j]`. -/
def matVecMul (A : Mat) (v : Vec) : Vec :=
  A.map (fun row => (List.zipWith (· * ·) row v).sum)

/-- The vector·vector branch of `LinAlg::matrix_multiply`
(`src/src/linalg.cpp`, both rank 1): the outer product
`result[i][j] = a[i]·b[j]`. -/
def outerProd (a b : Vec) : Mat := a.map (fun ai => scaleVec ai b)

/-- The specification's `transpose(a)` (rank-2): column `j` of `A`
becomes row `j`. -/
def specTranspose (A : Mat) : Mat :=
  (List.range (A.headD []).length).map (fun j => A.map (fun r => r.getD j 0))

/-- The specification's rank-2 matrix product:
`(A·B)[i][j] = Σ_k A[i][k]·B[k][j]`. -/
def specMatMul (A B : Mat) : Mat :=
  A.map (fun row =>
    (List.range (B.headD []).length).map
      (fun j => (List.zipWith (fun x r => x * r.getD j 0) row B).sum))

/-- The specification's `columnSum`: summing a matrix down each of its
`k` columns. -/
def specColumnSum (k : ℕ) (A : Mat) : Vec :=
  (List.range k).map (fun j => (A.map (fun r => r.getD j 0)).sum)

/-- Dividing every entry of a vector by a scalar (`b_grad /= n`). -/
def divVec (v : Vec) (n : ℚ) : Vec := v.map (fun x => x / n)

/-- Dividing every entry of a matrix by a scalar (`w_grad /= n`). -/
def divMat (A : Mat) (n : ℚ) : Mat := A.map (fun row => divVec row n)

end LinAlg

namespace Layers

open LinAlg

/-- `Layers::Dense::apply(const Tensor&)` from `src/src/dense.cpp:31`:
`return LinAlg::matrix_multiply(input, weights) + bias;` — the affine
transform only; the stored activation is *not* applied. -/
def denseApplyCode (W : Mat) (b : Vec) (x : Vec) : Vec :=
  addVec (vecMatMul x W) b

/-- The forward pass the specification claims for Dense:
`activation.forward(dense_forward(x, weights, bias))`, i.e. the
activation applied elementwise to the affine transform. -/
def denseForwardClaim (act : ActivationQ) (W : Mat) (b : Vec) (x : Vec) : Vec :=
  (denseApplyCode W b x).map act.func

/-- The per-example `activ_grad` of `Dense::backward`
(`src/src/dense.cpp:50-51`): the activation derivative evaluated at the
pre-activation `matrix_multiply(x, weights) + bias`, multiplied
elementwise by the upstream gradient. -/
def activGradOf (act : ActivationQ) (W : Mat) (b : Vec) (x g : Vec) : Vec :=
  List.zipWith (· * ·) ((addVec (vecMatMul x W) b).map act.deriv) g

/-- The batch of `activ_grad` rows, one per datapoint. -/
def activGradMat (act : ActivationQ) (W : Mat) (b : Vec) (xs gs : List Vec) : Mat :=
  (xs.zip gs).map (fun p => activGradOf act W b p.1 p.2)

/-- `Layers::Dense::backward` from `src/src/dense.cpp:41-64`: per
datapoint, accumulate `w_grad += matrix_multiply(x, activ_grad)` (an
outer product), `b_grad += activ_grad`, and record
`prev_grad[d] = matrix_multiply(weights, activ_grad)`; then divide the
accumulated gradients by the batch size `n` and pass them through the
layer's two owned optimizers `w_opt` and `b_opt` (modelled as the
update functions `wOpt`, `bOpt`).  The per-example input gradients are
returned undivided. -/
def denseBackward (inSize outSize : ℕ) (act : ActivationQ) (W : Mat) (b : Vec)
    (wOpt : Mat → Mat → Mat) (bOpt : Vec → Vec → Vec)
    (xs gs : List Vec) : Mat × Vec × List Vec :=
  let pairs := xs.zip gs
  let wGrad := pairs.foldl
    (fun acc p => matAdd acc (outerProd p.1 (activGradOf act W b p.1 p.2)))
    (zeroMat inSize outSize)
  let bGrad := pairs.foldl
    (fun acc p => addVec acc (activGradOf act W b p.1 p.2)) (zeroVec outSize)
  let prevGrads := pairs.map (fun p => matVecMul W (activGradOf act W b p.1 p.2))
  (wOpt W (divMat wGrad (xs.length : ℚ)),
   bOpt b (divVec bGrad (xs.length : ℚ)),
   prevGrads)

end Layers

namespace Loss

/-- `Loss::clip` from `src/include/FJML/loss.h:22` — declared there but
referenced nowhere in `src/src/loss.cpp`. -/
def lossClip : ℚ := 1000000

/-- The derivative lambda of `Loss::mse` (`src/src/loss.cpp:32-41`):
guard on equal `data_size[0]`, then elementwise `2·(pred − label)`.
No clipping is applied. -/
def mseDerivative (label pred : TensorQ) : Option TensorQ :=
  if label.size ≠ pred.size then none
  else some ⟨label.shape, List.zipWith (fun l p => 2 * (p - l)) label.data pred.data⟩

/-- The per-row maximum computed by the `from_logits` crossentropy of
`src/src/loss.cpp:160-166`: initialized from the row's first logit, the
loop folding `max` over the rest. -/
def celRowMax (prow : List ℚ) : ℚ := (prow.drop 1).foldl max (prow.headD 0)

/-- One row's contribution to the `from_logits` crossentropy loss
(`src/src/loss.cpp:156-178`): with `m` the row max and
`denom = Σ E(pᵢ - m)`, add `-lᵢ·(pᵢ - m) + lᵢ·L(denom)` over the row.
`E` stands for `exp` and `L` for `log`. -/
def celLossRow (E L : ℚ → ℚ) (lrow prow : List ℚ) : ℚ :=
  let m := celRowMax prow
  let denom := (prow.map (fun p => E (p - m))).sum
  (List.zipWith (fun l p => -l * (p - m) + l * L denom) lrow prow).sum

/-- The `from_logits` crossentropy loss of `src/src/loss.cpp:155-180`,
summed over all datapoint rows. -/
def celLoss (E L : ℚ → ℚ) (labels preds : List (List ℚ)) : ℚ :=
  (List.zipWith (celLossRow E L) labels preds).sum

/-- One row of the `from_logits` crossentropy derivative
(`src/src/loss.cpp:181-198`): `result_i = -l_i + E(p_i - m)/denom`. -/
def celDerivRow (E : ℚ → ℚ) (lrow prow : List ℚ) : List ℚ :=
  let m := celRowMax prow
  let denom := (prow.map (fun p => E (p - m))).sum
  List.zipWith (fun l p => -l + E (p - m) / denom) lrow prow

/-- The `from_logits` crossentropy derivative of
`src/src/loss.cpp:181-198`, row by row. -/
def celDeriv (E : ℚ → ℚ) (labels preds : List (List ℚ)) : List (List ℚ) :=
  List.zipWith (celDerivRow E) labels preds

/-- The specification's softmax of a row of logits:
`softmax(p)_i = E(p_i) / Σ_j E(p_j)`. -/
def specSoftmaxRow (E : ℚ → ℚ) (prow : List ℚ) : List ℚ :=
  prow.map (fun p => E p / (prow.map E).sum)

end Loss

namespace Optimizers

/-- The state of `Optimizers::Adam`
(`src/include/FJML/optimizers.h:106-171`): hyperparameters `alpha`,
`beta1`, `beta2` plus the moment tensors `m`, `v` and the step counter
`t`. -/
structure AdamQ where
  alpha : ℚ
  beta1 : ℚ
  beta2 : ℚ
  m : TensorQ
  v : TensorQ
  t : ℕ

/-- `Adam::clone` from `src/include/FJML/optimizers.h:170`:
`return new Adam(*this);` — C++ copy construction, i.e. a memberwise
copy of every field, the moment state included. -/
def adamClone (a : AdamQ) : AdamQ :=
  ⟨a.alpha, a.beta1, a.beta2, a.m, a.v, a.t⟩

/-- `Adam::epsilon = 1e-8` from `src/include/FJML/optimizers.h:130`. -/
def adamEpsilon : ℚ := 1 / 100000000

/-- `Adam::init` from `src/src/adam.cpp:12-18`: the moment tensors are
reallocated as zeros of the parameter's shape and `t` is reset to 1 when
`m.data_size[0] != params.data_size[0]` or likewise for `v` — i.e. the
guard compares total element counts, not shapes. -/
def adamInit (a : AdamQ) (params : TensorQ) : AdamQ :=
  if a.m.size ≠ params.size ∨ a.v.size ≠ params.size then
    { a with m := ⟨params.shape, List.replicate params.size 0⟩,
             v := ⟨params.shape, List.replicate params.size 0⟩,
             t := 1 }
  else a

/-- `Adam::apply_grad` from `src/src/adam.cpp:20-35`, built from the
embedded tensor operators (so every shape guard of
`src/src/tensor.cpp` is carried over).  `S` stands for the `std::sqrt`
applied elementwise through `apply_function`. -/
def adamApplyGrad (S : ℚ → ℚ) (a : AdamQ) (params grads : TensorQ) :
    Option (AdamQ × TensorQ) := do
  let a1 := adamInit a params
  let m1 ← tensorAdd (scalarMulT a1.beta1 a1.m) (scalarMulT (1 - a1.beta1) grads)
  let gg ← tensorMul (scalarMulT (1 - a1.beta2) grads) grads
  let v1 ← tensorAdd (scalarMulT a1.beta2 a1.v) gg
  let mhat := scalarDivT m1 (1 - a1.beta1 ^ a1.t)
  let vhat := scalarDivT v1 (1 - a1.beta2 ^ a1.t)
  let denom := scalarAddT (tensorMap S vhat) adamEpsilon
  let upd ← tensorDiv (scalarMulT a1.alpha mhat) denom
  let params1 ← tensorSub params upd
  return ({ a1 with m := m1, v := v1, t := a1.t + 1 }, params1)

/-- The Adam update written out directly (the amended specification):
lazily reset when the *total element count* of the stored moments
differs from the parameter's, then
`m = β1·m + (1-β1)·g`, `v = β2·v + (1-β2)·g²`,
`p -= α·(m/(1-β1^t)) / (S(v/(1-β2^t)) + ε)`, `t += 1`. -/
def specAdamUpdate (S : ℚ → ℚ) (a : AdamQ) (params grads : TensorQ) :
    AdamQ × TensorQ :=
  let reset := a.m.size ≠ params.size ∨ a.v.size ≠ params.size
  let t0 := if reset then 1 else a.t
  let m0 := if reset then List.replicate params.size (0 : ℚ) else a.m.data
  let v0 := if reset then List.replicate params.size (0 : ℚ) else a.v.data
  let msh := if reset then params.shape else a.m.shape
  let vsh := if reset then params.shape else a.v.shape
  let m1 := List.zipWith (fun m g => a.beta1 * m + (1 - a.beta1) * g) m0 grads.data
  let v1 := List.zipWith (fun v g => a.beta2 * v + (1 - a.beta2) * g * g) v0 grads.data
  let pd := List.zipWith (· - ·) params.data
    (List.zipWith
      (fun m v => a.alpha * (m / (1 - a.beta1 ^ t0)) / (S (v / (1 - a.beta2 ^ t0)) + adamEpsilon))
      m1 v1)
  (⟨a.alpha, a.beta1, a.beta2, ⟨msh, m1⟩, ⟨vsh, v1⟩, t0 + 1⟩, ⟨params.shape, pd⟩)

end Optimizers

namespace Layers

/-- One row of `Softmax::apply` (`src/src/softmax.cpp:13-32`) after its
shift `m` has been fixed: exponentiate every entry shifted by `m`, then
divide by the accumulated sum.  `E` stands for `exp`. -/
def processRow (E : ℚ → ℚ) (m : ℚ) (row : List ℚ) : List ℚ :=
  let ex := row.map (fun x => E (x - m))
  ex.map (fun y => y / ex.sum)

/-- The maximum of a nonempty row, as the specification's "the row's own
maximum": start from the row's first entry and fold `max` over the
rest. -/
def rowMax (r : List ℚ) : ℚ := (r.drop 1).foldl max (r.headD 0)

/-- `Softmax::apply` from `src/src/softmax.cpp:13-32`.  The tensor is
normalized *in place*; for every row the shift is initialized from
`res.data[0]` — the first element of the whole buffer, which after row 0
has been processed already holds row 0's first softmax output — and the
inner maximum loop starts at column 1, skipping the row's own first
entry. -/
def softmaxApplyCode (E : ℚ → ℚ) (rows : List (List ℚ)) : List (List ℚ) :=
  match rows with
  | [] => []
  | r0 :: rest =>
    let m0 := (r0.drop 1).foldl max (r0.headD 0)
    let p0 := processRow E m0 r0
    let b0 := p0.headD 0
    p0 :: rest.map (fun r => processRow E ((r.drop 1).foldl max b0) r)

/-- The per-row shift that `Softmax::apply` subtracts before
exponentiating, extracted from `softmaxApplyCode`. -/
def softmaxShifts (E : ℚ → ℚ) (rows : List (List ℚ)) : List ℚ :=
  match rows with
  | [] => []
  | r0 :: rest =>
    let m0 := (r0.drop 1).foldl max (r0.headD 0)
    let b0 := (processRow E m0 r0).headD 0
    m0 :: rest.map (fun r => (r.drop 1).foldl max b0)

end Layers

namespace Layers

/-- A whitespace-separated token of the model file format
(`src/src/mlp.cpp` save/load and `src/src/dense.cpp` save/ctor): a word,
an integer, or a numeric value. -/
inductive FileTok where
  | str : String → FileTok
  | nat : ℕ → FileTok
  | num : ℚ → FileTok
deriving DecidableEq

/-- The persistent state of a Dense layer
(`src/src/dense.cpp:66-106`). -/
structure DenseL where
  activName : String
  inputSize : ℕ
  outputSize : ℕ
  weights : List (List ℚ)
  bias : List ℚ
deriving DecidableEq

/-- The value actually written by `file << weights.at(i, j)` in
`Dense::save` (`src/src/dense.cpp:66-79`): `std::ostream` at its default
precision renders a floating-point value with 6 significant decimal
digits, so the serialized value is the input rounded to 6 significant
digits (`0` is written exactly). -/
def sig6 (x : ℚ) : ℚ :=
  if x = 0 then 0
  else (round (x * (10 : ℚ) ^ (5 - Int.log 10 |x|)) : ℚ) *
    (10 : ℚ) ^ (Int.log 10 |x| - 5)

/-- `Layers::Dense::save` (`src/src/dense.cpp:66-79`): the tag `Dense`,
the activation name, the two sizes, the weights in row-major order and
then the bias — every numeric value passing through the stream's
6-significant-digit formatting. -/
def saveDense (d : DenseL) : List FileTok :=
  [FileTok.str "Dense", FileTok.str d.activName,
   FileTok.nat d.inputSize, FileTok.nat d.outputSize]
  ++ (d.weights.map (fun row => row.map (fun w => FileTok.num (sig6 w)))).flatten
  ++ d.bias.map (fun v => FileTok.num (sig6 v))

/-- Reading `k` numeric values from the token stream (the `file >>`
loops of the `Dense(std::ifstream&)` constructor); fails if a
non-numeric token is hit. -/
def readNums : ℕ → List FileTok → Option (List ℚ × List FileTok)
  | 0, ts => some ([], ts)
  | k + 1, FileTok.num q :: ts =>
    (readNums k ts).map (fun pr => (q :: pr.1, pr.2))
  | _ + 1, _ => none

/-- Grouping `i·o` row-major values back into `i` rows of `o` (the
nested `file >> weights.at(i, j)` loops). -/
def toRows : ℕ → ℕ → List ℚ → List (List ℚ)
  | 0, _, _ => []
  | i + 1, o, l => l.take o :: toRows i o (l.drop o)

/-- `Layers::load` + `Dense(std::ifstream&)`
(`src/src/layers.cpp` dispatch and `src/src/dense.cpp:81-106`): match the
`Dense` tag, look the activation name up in `Activations::activations`
(throwing `Unknown activation function` — modelled as `none` — if
absent), then read sizes, weights and bias. -/
def loadDense (toks : List FileTok) : Option DenseL :=
  match toks with
  | FileTok.str "Dense" :: FileTok.str an :: FileTok.nat i :: FileTok.nat o :: rest =>
    if an ∈ activationNames then
      (readNums (i * o) rest).bind (fun pw =>
        (readNums o pw.2).bind (fun pb =>
          some ⟨an, i, o, toRows i o pw.1, pb.1⟩))
    else none
  | _ => none

end Layers

/-- `MLP::run` from `src/src/mlp.cpp:68-74`: fold the input through the
layers in order (each layer modelled by its forward function). -/
def mlpRun (layers : List (TensorQ → TensorQ)) (x : TensorQ) : TensorQ :=
  layers.foldl (fun acc l => l acc) x

/-- `Loss::Loss` from `src/include/FJML/loss.h`: a named loss whose
`calc_loss` simply invokes the stored function on `(label, pred)`
(`src/src/loss.cpp:13`). -/
structure LossQ where
  name : String
  function : TensorQ → TensorQ → Option ℚ

/-- The non-`from_logits` crossentropy of `src/src/loss.cpp:131-152`:
guard on equal `data_size[0]`, then `Σ -label_i · log(pred_i)` over the
flat buffers; `L` stands for `log`. -/
def crossentropyPlain (L : ℚ → ℚ) : LossQ :=
  ⟨"crossentropy", fun label pred =>
    if label.size ≠ pred.size then none
    else some ((List.zipWith (fun l p => -l * L p) label.data pred.data).sum)⟩

/-- `MLP::calc_loss` from `src/src/mlp.cpp:76-78`:
`loss_fn.calc_loss(run(x_test), y_test) / x_test.shape[0]` — the
network's output is passed as the loss function's *first* argument (the
label slot) and `y_test` as the second (the prediction slot). -/
def mlpCalcLoss (loss : LossQ) (layers : List (TensorQ → TensorQ))
    (xTest yTest : TensorQ) : Option ℚ :=
  (loss.function (mlpRun layers xTest) yTest).map
    (fun s => s / (xTest.shape.headD 0 : ℚ))


end FJML

/-- **C1 (code evaluated at the failing input).** `Dense::apply` in
`src/src/dense.cpp:31` returns the bare affine transform
`matrix_multiply(x, weights) + bias` without applying the layer's
activation: for a relu Dense layer with weights `[[1]]`, bias `[0]` and
input `[-1]` the code returns `[-1]`, while the claimed forward pass
`activation.forward(dense_forward(x, weights, bias))` returns `[0]`. -/
theorem c1_dense_apply_omits_activation :
    FJML.Layers.denseApplyCode [[1]] [0] [-1] = [-1] ∧
    FJML.Layers.denseForwardClaim FJML.reluQ [[1]] [0] [-1] = [0] ∧
    ([-1] : List ℚ) ≠ [0] := by
  refine ⟨?_, ?_, by norm_num⟩ <;>
    norm_num [FJML.Layers.denseApplyCode, FJML.Layers.denseForwardClaim,
      FJML.LinAlg.vecMatMul, FJML.LinAlg.addVec, FJML.LinAlg.scaleVec,
      FJML.LinAlg.zeroVec, FJML.reluQ, List.zipWith]

/-- **C3.** The elementwise operators of `src/src/tensor.cpp` accept two
tensors whose shapes differ but whose total element counts agree: a
`[2,3]` tensor and a `[3,2]` tensor are combined elementwise by all four
operators (taking the left operand's shape) instead of being rejected.
This contradicts the claim that operands with equal element count but
different shapes raise a shape-mismatch error (and contradicts the
operators' own exception text). -/
theorem c3_elementwise_ops_accept_same_size_different_shape :
    FJML.tensorAdd ⟨[2, 3], [1, 2, 3, 4, 5, 6]⟩ ⟨[3, 2], [10, 20, 30, 40, 50, 60]⟩ =
      some ⟨[2, 3], [11, 22, 33, 44, 55, 66]⟩ ∧
    FJML.tensorSub ⟨[2, 3], [1, 2, 3, 4, 5, 6]⟩ ⟨[3, 2], [10, 20, 30, 40, 50, 60]⟩ =
      some ⟨[2, 3], [-9, -18, -27, -36, -45, -54]⟩ ∧
    FJML.tensorMul ⟨[2, 3], [1, 2, 3, 4, 5, 6]⟩ ⟨[3, 2], [10, 20, 30, 40, 50, 60]⟩ =
      some ⟨[2, 3], [10, 40, 90, 160, 250, 360]⟩ ∧
    FJML.tensorDiv ⟨[2, 3], [1, 2, 3, 4, 5, 6]⟩ ⟨[3, 2], [10, 20, 30, 40, 50, 60]⟩ =
      some ⟨[2, 3], [1/10, 1/10, 1/10, 1/10, 1/10, 1/10]⟩ ∧
    ([2, 3] : List ℕ) ≠ [3, 2] := by
  refine ⟨?_, ?_, ?_, ?_, by decide⟩ <;>
    · simp only [FJML.tensorAdd, FJML.tensorSub, FJML.tensorMul, FJML.tensorDiv,
        FJML.TensorQ.size]
      norm_num [List.zipWith]

/-- **C2 (code evaluated at the failing input).** For the rank-2 input
`[[0,0,0],[1000,0,0]]`, `Softmax::apply` subtracts `1/3` — the already
normalized first entry of row 0, folded with row 1's entries from
column 1 on — from row 1 instead of row 1's own maximum `1000`: the code
then exponentiates `1000 - 1/3`, which overflows in floating point,
contradicting the claim that each row is shifted by its own maximum. -/
theorem c2_softmax_shift_is_not_row_max (E : ℚ → ℚ) (hE : E 0 = 1) :
    FJML.Layers.softmaxShifts E [[0, 0, 0], [1000, 0, 0]] = [0, 1/3] ∧
    FJML.Layers.softmaxApplyCode E [[0, 0, 0], [1000, 0, 0]] =
      [[1/3, 1/3, 1/3], FJML.Layers.processRow E (1/3) [1000, 0, 0]] ∧
    FJML.Layers.rowMax [1000, 0, 0] = 1000 ∧
    ((1 : ℚ)/3) ≠ 1000 := by
  have h1 : FJML.Layers.processRow E 0 [0, 0, 0] = [1/3, 1/3, 1/3] := by
    simp [FJML.Layers.processRow, hE]
    norm_num
  refine ⟨?_, ?_, ?_, by norm_num⟩
  · simp [FJML.Layers.softmaxShifts, h1]
  · simp [FJML.Layers.softmaxApplyCode, h1]
  · norm_num [FJML.Layers.rowMax, max_def]

/-- Witness for `c2_softmax_shift_is_not_row_max` at `E = fun _ => 1`. -/
theorem c2_softmax_shift_witness :
    FJML.Layers.softmaxShifts (fun _ => 1) [[0, 0, 0], [1000, 0, 0]] = [0, 1/3] ∧
    FJML.Layers.softmaxApplyCode (fun _ => 1) [[0, 0, 0], [1000, 0, 0]] =
      [[1/3, 1/3, 1/3], FJML.Layers.processRow (fun _ => 1) (1/3) [1000, 0, 0]] ∧
    FJML.Layers.rowMax [1000, 0, 0] = 1000 ∧
    ((1 : ℚ)/3) ≠ 1000 :=
  c2_softmax_shift_is_not_row_max (fun _ => 1) rfl

/-- **C6 (counterexample).** No gradient clipping happens in the loss
derivatives: `mse`'s derivative at label `[0]`, prediction `[10^10]` is
`[2·10^10]`, whose entry exceeds `10^9` — hence it exceeds every
constant `CLIP` in the claimed range `[10^6, 10^9]`, including the
(unused) `Loss::clip = 10^6` declared in `loss.h`. -/
theorem c6_mse_derivative_not_clipped :
    FJML.Loss.mseDerivative ⟨[1], [0]⟩ ⟨[1], [10000000000]⟩ =
      some ⟨[1], [20000000000]⟩ ∧
    ¬((20000000000 : ℚ) ≤ 1000000000) ∧
    FJML.Loss.lossClip = 1000000 := by
  refine ⟨?_, by norm_num, rfl⟩
  norm_num [FJML.Loss.mseDerivative, FJML.TensorQ.size, List.zipWith]

/-- **C6 (amended).** The derivative of `mse` is exactly the unclipped
elementwise `2·(pred − label)` whenever the operand sizes agree, and it
is unbounded: for every bound `B` there is an input whose derivative
entry exceeds `B`. -/
theorem c6_mse_derivative_formula :
    (∀ label pred : FJML.TensorQ, label.size = pred.size →
      FJML.Loss.mseDerivative label pred =
        some ⟨label.shape, List.zipWith (fun l p => 2 * (p - l)) label.data pred.data⟩) ∧
    (∀ B : ℚ, ∃ res : FJML.TensorQ,
      FJML.Loss.mseDerivative ⟨[1], [0]⟩ ⟨[1], [B / 2 + 1]⟩ = some res ∧
      ∃ z ∈ res.data, B < z) := by
  constructor
  · intro label pred h
    simp [FJML.Loss.mseDerivative, h]
  · intro B
    refine ⟨⟨[1], [2 * (B / 2 + 1 - 0)]⟩, ?_, ?_⟩
    · simp [FJML.Loss.mseDerivative, FJML.TensorQ.size, List.zipWith]
    · refine ⟨2 * (B / 2 + 1 - 0), by simp, by linarith⟩

/-- Witness for `c6_mse_derivative_formula` at label `[3]`,
prediction `[5]`. -/
theorem c6_mse_derivative_formula_witness :
    FJML.Loss.mseDerivative ⟨[1], [3]⟩ ⟨[1], [5]⟩ = some ⟨[1], [4]⟩ := by
  have h := c6_mse_derivative_formula.1 ⟨[1], [3]⟩ ⟨[1], [5]⟩ rfl
  rw [h]
  norm_num [List.zipWith]

/-- **C7 (counterexample).** `Adam::clone` is `new Adam(*this)`: cloning
an Adam optimizer that has accumulated moment state `m = [5]`,
`v = [7]`, `t = 3` yields a clone with exactly that state — the moment
tensors are copied, not emptied, and the time step is not reset to 1. -/
theorem c7_adam_clone_copies_moment_state :
    (FJML.Optimizers.adamClone
        ⟨1/1000, 9/10, 999/1000, ⟨[1], [5]⟩, ⟨[1], [7]⟩, 3⟩).m = ⟨[1], [5]⟩ ∧
    (FJML.Optimizers.adamClone
        ⟨1/1000, 9/10, 999/1000, ⟨[1], [5]⟩, ⟨[1], [7]⟩, 3⟩).v = ⟨[1], [7]⟩ ∧
    (FJML.Optimizers.adamClone
        ⟨1/1000, 9/10, 999/1000, ⟨[1], [5]⟩, ⟨[1], [7]⟩, 3⟩).t = 3 ∧
    (⟨[1], [5]⟩ : FJML.TensorQ).data ≠ [] ∧ (3 : ℕ) ≠ 1 := by
  exact ⟨rfl, rfl, rfl, by simp [FJML.Optimizers.adamClone], by decide⟩

/-- **C7 (amended).** Cloning an Adam optimizer copies every field:
the hyperparameters `alpha`, `beta1`, `beta2` *and* the accumulated
moment state `m`, `v` and time step `t` (C++ copy construction); the
clone therefore behaves exactly like the original on any subsequent
`apply_grad` call. -/
theorem c7_adam_clone_is_full_copy (a : FJML.Optimizers.AdamQ) :
    (FJML.Optimizers.adamClone a).alpha = a.alpha ∧
    (FJML.Optimizers.adamClone a).beta1 = a.beta1 ∧
    (FJML.Optimizers.adamClone a).beta2 = a.beta2 ∧
    (FJML.Optimizers.adamClone a).m = a.m ∧
    (FJML.Optimizers.adamClone a).v = a.v ∧
    (FJML.Optimizers.adamClone a).t = a.t ∧
    (∀ (S : ℚ → ℚ) (params grads : FJML.TensorQ),
      FJML.Optimizers.adamApplyGrad S (FJML.Optimizers.adamClone a) params grads =
        FJML.Optimizers.adamApplyGrad S a params grads) :=
  ⟨rfl, rfl, rfl, rfl, rfl, rfl, fun _ _ _ => rfl⟩

/-- **C4 (counterexample).** `Adam::init` compares only total element
counts (`data_size[0]`), not shapes: for an Adam optimizer whose moments
have shape `[2,3]` (with `m = v = [1,…,1]`, `t = 5`) and a parameter
tensor of the *different* shape `[3,2]` with the same 6 elements,
`apply_grad` does *not* reinitialize — afterwards `t = 6` (not `2`) and
`m = [9/10,…]` (not the `0` a zero-reinitialized first moment would give
on an all-zero gradient), contradicting the claim that a parameter shape
change resets the moment state. -/
theorem c4_adam_no_reset_on_shape_change :
    (FJML.Optimizers.adamApplyGrad (fun x => x)
        ⟨1/1000, 9/10, 999/1000, ⟨[2, 3], [1, 1, 1, 1, 1, 1]⟩,
          ⟨[2, 3], [1, 1, 1, 1, 1, 1]⟩, 5⟩
        ⟨[3, 2], [0, 0, 0, 0, 0, 0]⟩ ⟨[3, 2], [0, 0, 0, 0, 0, 0]⟩).map
      (fun r => (r.1.t, r.1.m)) =
      some (6, ⟨[2, 3], [9/10, 9/10, 9/10, 9/10, 9/10, 9/10]⟩) ∧
    ([2, 3] : List ℕ) ≠ [3, 2] ∧ (6 : ℕ) ≠ 2 := by
  refine ⟨?_, by decide, by decide⟩
  simp only [FJML.Optimizers.adamApplyGrad, FJML.Optimizers.adamInit,
    FJML.tensorAdd, FJML.tensorSub, FJML.tensorMul, FJML.tensorDiv,
    FJML.scalarMulT, FJML.scalarAddT, FJML.scalarDivT, FJML.tensorMap,
    FJML.TensorQ.size, FJML.Optimizers.adamEpsilon]
  norm_num [List.zipWith, Option.bind]

/-- **C4 (amended).** `Adam::apply_grad` computes exactly the claimed
update formulas — `m = β1·m + (1-β1)·g`, `v = β2·v + (1-β2)·g²`,
bias correction with `β1^t`, `β2^t`,
`params -= α·m̂/(√v̂ + ε)` with `ε = 1e-8`, then `t += 1` — but the lazy
zero-initialization of `m`, `v` and the reset `t = 1` happen exactly
when the stored moments' total element count differs from the
parameter's total element count (so the first call resets, while a
shape change that preserves the element count does not). -/
theorem c4_adam_apply_grad_formula (S : ℚ → ℚ)
    (a : FJML.Optimizers.AdamQ) (params grads : FJML.TensorQ)
    (hsz : grads.size = params.size) :
    FJML.Optimizers.adamApplyGrad S a params grads =
      some (FJML.Optimizers.specAdamUpdate S a params grads) := by
  unfold FJML.Optimizers.adamApplyGrad FJML.Optimizers.specAdamUpdate
    FJML.Optimizers.adamInit
  simp only [FJML.TensorQ.size, ne_eq] at hsz ⊢
  by_cases hreset : ¬a.m.shape.prod = params.shape.prod ∨
      ¬a.v.shape.prod = params.shape.prod
  · simp only [if_pos hreset]
    simp only [FJML.tensorAdd, FJML.tensorMul, FJML.tensorDiv, FJML.tensorSub,
      FJML.scalarMulT, FJML.scalarAddT, FJML.scalarDivT, FJML.tensorMap,
      FJML.TensorQ.size, ne_eq, Option.pure_def, Option.bind_eq_bind,
      Option.some_bind, hsz, not_true_eq_false, if_false, ite_false,
      List.zipWith_map, List.zipWith_map_left, List.zipWith_map_right,
      List.zipWith_same, List.map_map, Function.comp]
  · simp only [if_neg hreset]
    push_neg at hreset
    obtain ⟨hm1, hv1⟩ := hreset
    simp only [FJML.tensorAdd, FJML.tensorMul, FJML.tensorDiv, FJML.tensorSub,
      FJML.scalarMulT, FJML.scalarAddT, FJML.scalarDivT, FJML.tensorMap,
      FJML.TensorQ.size, ne_eq, Option.pure_def, Option.bind_eq_bind,
      Option.some_bind, hsz, hm1, hv1, not_true_eq_false, if_false, ite_false,
      List.zipWith_map, List.zipWith_map_left, List.zipWith_map_right,
      List.zipWith_same, List.map_map, Function.comp]

/-- Witness for `c4_adam_apply_grad_formula`: a freshly constructed Adam
optimizer (`m = v` of shape `[0]`, `t = 1`) applied to a one-element
parameter. -/
theorem c4_adam_apply_grad_formula_witness :
    FJML.Optimizers.adamApplyGrad (fun x => x)
        ⟨1/1000, 9/10, 999/1000, ⟨[0], []⟩, ⟨[0], []⟩, 1⟩ ⟨[1], [2]⟩ ⟨[1], [1]⟩ =
      some (FJML.Optimizers.specAdamUpdate (fun x => x)
        ⟨1/1000, 9/10, 999/1000, ⟨[0], []⟩, ⟨[0], []⟩, 1⟩ ⟨[1], [2]⟩ ⟨[1], [1]⟩) :=
  c4_adam_apply_grad_formula (fun x => x) _ _ _ rfl


namespace FJML.LinAlg

theorem length_addVec (a b : Vec) : (addVec a b).length = min a.length b.length :=
  List.length_zipWith _ _ _

theorem getD_addVec (a b : Vec) (h : a.length = b.length) (j : ℕ) :
    (addVec a b).getD j 0 = a.getD j 0 + b.getD j 0 := by
  by_cases hj : j < a.length
  · have h1 : j < (addVec a b).length := by
      rw [length_addVec, h]; omega
    rw [List.getD_eq_getElem _ _ h1, List.getD_eq_getElem _ _ hj,
      List.getD_eq_getElem _ _ (h ▸ hj)]
    simp [addVec]
  · rw [List.getD_eq_default _ _ (by rw [length_addVec, h]; omega),
      List.getD_eq_default _ _ (by omega), List.getD_eq_default _ _ (by omega : b.length ≤ j)]
    norm_num

theorem getD_scaleVec (c : ℚ) (v : Vec) (j : ℕ) :
    (scaleVec c v).getD j 0 = c * v.getD j 0 := by
  by_cases hj : j < v.length
  · rw [List.getD_eq_getElem _ _ (by simpa [scaleVec] using hj),
      List.getD_eq_getElem _ _ hj]
    simp [scaleVec]
  · rw [List.getD_eq_default _ _ (by simp [scaleVec]; omega),
      List.getD_eq_default _ _ (by omega)]
    norm_num

theorem getD_zeroVec (n j : ℕ) : (zeroVec n).getD j 0 = 0 := by
  by_cases hj : j < n
  · rw [List.getD_eq_getElem _ _ (by simpa [zeroVec] using hj)]
    simp [zeroVec]
  · rw [List.getD_eq_default _ _ (by simp [zeroVec]; omega)]

theorem foldl_addVec_length {α : Type} (F : α → Vec) (l : List α) :
    ∀ acc : Vec, (∀ a ∈ l, (F a).length = acc.length) →
    (l.foldl (fun acc a => addVec acc (F a)) acc).length = acc.length := by
  induction l with
  | nil => intro acc _; rfl
  | cons x xs ih =>
    intro acc h
    have hv : (F x).length = acc.length := h x (by simp)
    have hlen : (addVec acc (F x)).length = acc.length := by
      rw [length_addVec, hv]; omega
    calc ((x :: xs).foldl (fun acc a => addVec acc (F a)) acc).length
        = (xs.foldl (fun acc a => addVec acc (F a)) (addVec acc (F x))).length := rfl
      _ = (addVec acc (F x)).length := by
          refine ih _ (fun w hw => ?_)
          rw [hlen]; exact h w (by simp [hw])
      _ = acc.length := hlen

theorem foldl_addVec_getD {α : Type} (F : α → Vec) (l : List α) :
    ∀ acc : Vec, (∀ a ∈ l, (F a).length = acc.length) → ∀ j : ℕ,
    (l.foldl (fun acc a => addVec acc (F a)) acc).getD j 0 =
      acc.getD j 0 + (l.map (fun a => (F a).getD j 0)).sum := by
  induction l with
  | nil => intro acc _ j; simp
  | cons x xs ih =>
    intro acc h j
    have hv : (F x).length = acc.length := h x (by simp)
    have hlen : (addVec acc (F x)).length = acc.length := by
      rw [length_addVec, hv]; omega
    have step := ih (addVec acc (F x))
      (fun w hw => by rw [hlen]; exact h w (by simp [hw])) j
    calc ((x :: xs).foldl (fun acc a => addVec acc (F a)) acc).getD j 0
        = (xs.foldl (fun acc a => addVec acc (F a)) (addVec acc (F x))).getD j 0 := rfl
      _ = (addVec acc (F x)).getD j 0 + (xs.map (fun a => (F a).getD j 0)).sum := step
      _ = (acc.getD j 0 + (F x).getD j 0) + (xs.map (fun a => (F a).getD j 0)).sum := by
          rw [getD_addVec _ _ hv.symm]
      _ = acc.getD j 0 + ((x :: xs).map (fun a => (F a).getD j 0)).sum := by
          simp; ring

theorem length_matAdd (A B : Mat) : (matAdd A B).length = min A.length B.length :=
  List.length_zipWith _ _ _

theorem getD_matAdd_row (A B : Mat) (h : A.length = B.length) (i : ℕ) :
    (matAdd A B).getD i [] = addVec (A.getD i []) (B.getD i []) := by
  by_cases hi : i < A.length
  · rw [List.getD_eq_getElem _ _ (by rw [length_matAdd, h]; omega),
      List.getD_eq_getElem _ _ hi, List.getD_eq_getElem _ _ (h ▸ hi)]
    simp [matAdd]
  · rw [List.getD_eq_default _ _ (by rw [length_matAdd, h]; omega),
      List.getD_eq_default _ _ (by omega),
      List.getD_eq_default _ _ (by omega : B.length ≤ i)]
    rfl

theorem foldl_matAdd_length {α : Type} (F : α → Mat) (l : List α) :
    ∀ Acc : Mat, (∀ a ∈ l, (F a).length = Acc.length) →
    (l.foldl (fun acc a => matAdd acc (F a)) Acc).length = Acc.length := by
  induction l with
  | nil => intro Acc _; rfl
  | cons x xs ih =>
    intro Acc h
    have hM : (F x).length = Acc.length := h x (by simp)
    have hlen : (matAdd Acc (F x)).length = Acc.length := by
      rw [length_matAdd, hM]; omega
    calc ((x :: xs).foldl (fun acc a => matAdd acc (F a)) Acc).length
        = (xs.foldl (fun acc a => matAdd acc (F a)) (matAdd Acc (F x))).length := rfl
      _ = (matAdd Acc (F x)).length := by
          refine ih _ (fun w hw => ?_)
          rw [hlen]; exact h w (by simp [hw])
      _ = Acc.length := hlen

theorem of_mem_zipWith {f : Vec → Vec → Vec} :
    ∀ {l₁ l₂ : List Vec} {c : Vec}, c ∈ List.zipWith f l₁ l₂ →
      ∃ a b, a ∈ l₁ ∧ b ∈ l₂ ∧ c = f a b := by
  intro l₁
  induction l₁ with
  | nil => intro l₂ c hc; simp at hc
  | cons x xs ih =>
    intro l₂ c hc
    cases l₂ with
    | nil => simp at hc
    | cons y ys =>
      rcases (by simpa using hc) with h | h
      · exact ⟨x, y, by simp, by simp, h⟩
      · obtain ⟨a, b, ha, hb, rfl⟩ := ih h
        exact ⟨a, b, by simp [ha], by simp [hb], rfl⟩

theorem foldl_matAdd_rows {α : Type} (w : ℕ) (F : α → Mat) (l : List α) :
    ∀ Acc : Mat, (∀ a ∈ l, (F a).length = Acc.length) →
    (∀ a ∈ l, ∀ r ∈ F a, r.length = w) → (∀ r ∈ Acc, r.length = w) →
    ∀ r ∈ l.foldl (fun acc a => matAdd acc (F a)) Acc, r.length = w := by
  induction l with
  | nil => intro Acc _ _ hAcc r hr; exact hAcc r hr
  | cons x xs ih =>
    intro Acc h hrows hAcc r hr
    have hM : (F x).length = Acc.length := h x (by simp)
    have hlen : (matAdd Acc (F x)).length = Acc.length := by
      rw [length_matAdd, hM]; omega
    refine ih (matAdd Acc (F x))
      (fun a ha => by rw [hlen]; exact h a (by simp [ha]))
      (fun a ha => hrows a (by simp [ha])) ?_ r hr
    intro s hs
    obtain ⟨p, q, hp, hq, rfl⟩ := of_mem_zipWith hs
    rw [length_addVec, hAcc p hp, hrows x (by simp) q hq]
    omega

theorem foldl_matAdd_entry {α : Type} (w : ℕ) (F : α → Mat) (l : List α) :
    ∀ Acc : Mat, (∀ a ∈ l, (F a).length = Acc.length) →
    (∀ a ∈ l, ∀ r ∈ F a, r.length = w) → (∀ r ∈ Acc, r.length = w) →
    ∀ i j : ℕ,
    ((l.foldl (fun acc a => matAdd acc (F a)) Acc).getD i []).getD j 0 =
      (Acc.getD i []).getD j 0 +
        (l.map (fun a => ((F a).getD i []).getD j 0)).sum := by
  induction l with
  | nil => intro Acc _ _ _ i j; simp
  | cons x xs ih =>
    intro Acc h hrows hAcc i j
    have hM : (F x).length = Acc.length := h x (by simp)
    have hlen : (matAdd Acc (F x)).length = Acc.length := by
      rw [length_matAdd, hM]; omega
    have hAcc2 : ∀ r ∈ matAdd Acc (F x), r.length = w := by
      intro s hs
      obtain ⟨p, q, hp, hq, rfl⟩ := of_mem_zipWith hs
      rw [length_addVec, hAcc p hp, hrows x (by simp) q hq]
      omega
    have step := ih (matAdd Acc (F x))
      (fun a ha => by rw [hlen]; exact h a (by simp [ha]))
      (fun a ha => hrows a (by simp [ha])) hAcc2 i j
    have hrowlen : (Acc.getD i []).length = ((F x).getD i []).length := by
      by_cases hi : i < Acc.length
      · rw [List.getD_eq_getElem _ _ hi, List.getD_eq_getElem _ _ (hM ▸ hi)]
        rw [hAcc _ (List.getElem_mem hi), hrows x (by simp) _ (List.getElem_mem (hM ▸ hi))]
      · rw [List.getD_eq_default _ _ (by omega),
          List.getD_eq_default _ _ (by omega : (F x).length ≤ i)]
    calc (((x :: xs).foldl (fun acc a => matAdd acc (F a)) Acc).getD i []).getD j 0
        = ((xs.foldl (fun acc a => matAdd acc (F a)) (matAdd Acc (F x))).getD i []).getD j 0 := rfl
      _ = ((matAdd Acc (F x)).getD i []).getD j 0 +
            (xs.map (fun a => ((F a).getD i []).getD j 0)).sum := step
      _ = ((Acc.getD i []).getD j 0 + ((F x).getD i []).getD j 0) +
            (xs.map (fun a => ((F a).getD i []).getD j 0)).sum := by
          rw [getD_matAdd_row _ _ hM.symm, getD_addVec _ _ hrowlen]
      _ = (Acc.getD i []).getD j 0 +
            ((x :: xs).map (fun a => ((F a).getD i []).getD j 0)).sum := by
          simp; ring

theorem of_mem_zipWith_scale :
    ∀ {l₁ : Vec} {l₂ : List Vec} {c : Vec}, c ∈ List.zipWith scaleVec l₁ l₂ →
      ∃ a b, b ∈ l₂ ∧ c = scaleVec a b := by
  intro l₁
  induction l₁ with
  | nil => intro l₂ c hc; simp at hc
  | cons x xs ih =>
    intro l₂ c hc
    cases l₂ with
    | nil => simp at hc
    | cons y ys =>
      rcases (by simpa using hc) with h | h
      · exact ⟨x, y, by simp, h⟩
      · obtain ⟨a, b, hb, rfl⟩ := ih h
        exact ⟨a, b, by simp [hb], rfl⟩

theorem vecMatMul_length (a : Vec) (B : Mat) (k : ℕ)
    (hB : ∀ r ∈ B, r.length = k) (hk : (B.headD []).length = k) :
    (vecMatMul a B).length = k := by
  unfold vecMatMul
  rw [hk]
  have h := foldl_addVec_length (fun v : Vec => v) (List.zipWith scaleVec a B)
    (zeroVec k) ?_
  · simpa [zeroVec] using h
  · intro v hv
    obtain ⟨c, r, hr, rfl⟩ := of_mem_zipWith_scale hv
    simp [scaleVec, zeroVec, hB r hr]

theorem vecMatMul_getD (a : Vec) (B : Mat) (k : ℕ)
    (hB : ∀ r ∈ B, r.length = k) (hk : (B.headD []).length = k) (j : ℕ) :
    (vecMatMul a B).getD j 0 =
      (List.zipWith (fun x r => x * r.getD j 0) a B).sum := by
  unfold vecMatMul
  rw [hk]
  have h := foldl_addVec_getD (fun v : Vec => v) (List.zipWith scaleVec a B)
    (zeroVec k) ?_ j
  · rw [h, getD_zeroVec, zero_add, List.map_zipWith]
    have hfun : (fun (x : ℚ) (y : Vec) => (scaleVec x y).getD j 0) =
        fun x r => x * r.getD j 0 := by
      funext x r
      exact getD_scaleVec x r j
    rw [hfun]
  · intro v hv
    obtain ⟨c, r, hr, rfl⟩ := of_mem_zipWith_scale hv
    simp [scaleVec, zeroVec, hB r hr]

theorem getD_outerProd (x g : Vec) (i j : ℕ) :
    ((outerProd x g).getD i []).getD j 0 = x.getD i 0 * g.getD j 0 := by
  by_cases hi : i < x.length
  · have hi2 : i < (outerProd x g).length := by simpa [outerProd] using hi
    rw [List.getD_eq_getElem _ _ hi2, List.getD_eq_getElem _ _ hi]
    simp only [outerProd, List.getElem_map]
    exact getD_scaleVec _ _ _
  · have h1 : (outerProd x g).getD i [] = [] :=
      List.getD_eq_default _ _ (by simp [outerProd]; omega)
    have hx : x.getD i (0 : ℚ) = 0 := List.getD_eq_default _ _ (by omega)
    rw [h1, hx]
    simp

theorem getD_map_col (W : Mat) (k i : ℕ) :
    ((W.map (fun r => r.getD k 0)).getD i 0) = (W.getD i []).getD k 0 := by
  by_cases hi : i < W.length
  · rw [List.getD_eq_getElem _ _ (by simpa using hi), List.getD_eq_getElem _ _ hi]
    simp
  · rw [List.getD_eq_default _ _ (by simp; omega)]
    have hW : W.getD i ([] : Vec) = [] := List.getD_eq_default _ _ (by omega)
    rw [hW]
    rfl

theorem zipWith_map_zip {α β γ δ : Type} (f : α → δ → γ) (h : α × β → δ) :
    ∀ (xs : List α) (gs : List β),
      List.zipWith f xs ((xs.zip gs).map h) =
        (xs.zip gs).map (fun p => f p.1 (h p)) := by
  intro xs
  induction xs with
  | nil => intro gs; simp
  | cons x xs ih =>
    intro gs
    cases gs with
    | nil => simp
    | cons g gs => simp [ih]

end FJML.LinAlg

namespace FJML.Layers

open FJML.LinAlg

/-- **C5.** `Dense::backward` (`src/src/dense.cpp:41-64`) forms
`activGrad` as the activation derivative at the pre-activation times the
upstream gradient, passes `transpose(x)·activGrad / N` to the weight
optimizer and `columnSum(activGrad) / N` to the bias optimizer, and
returns the per-example input gradients `activGrad·transpose(weights)`,
which are not divided by `N`. -/
theorem c5_dense_backward (inSize outSize : ℕ) (act : ActivationQ)
    (W : Mat) (b : Vec) (wOpt : Mat → Mat → Mat) (bOpt : Vec → Vec → Vec)
    (xs gs : List Vec)
    (hin : 0 < inSize) (hout : 0 < outSize)
    (hW : W.length = inSize) (hWr : ∀ r ∈ W, r.length = outSize)
    (hb : b.length = outSize)
    (hxs : ∀ x ∈ xs, x.length = inSize) (hgs : ∀ g ∈ gs, g.length = outSize)
    (hlen : xs.length = gs.length) (hpos : 0 < xs.length) :
    denseBackward inSize outSize act W b wOpt bOpt xs gs =
      (wOpt W (divMat
          (specMatMul (specTranspose xs) (activGradMat act W b xs gs))
          (xs.length : ℚ)),
       bOpt b (divVec (specColumnSum outSize (activGradMat act W b xs gs))
          (xs.length : ℚ)),
       specMatMul (activGradMat act W b xs gs) (specTranspose W)) := by
  have hWne : W ≠ [] := by
    intro hcon
    rw [hcon] at hW
    simp at hW
    omega
  have hWhead : (W.headD []).length = outSize := by
    cases W with
    | nil => exact absurd rfl hWne
    | cons w ws => exact hWr w (by simp)
  have hxsne : xs ≠ [] := List.length_pos.mp hpos
  have hxshead : (xs.headD []).length = inSize := by
    cases xs with
    | nil => exact absurd rfl hxsne
    | cons x xt => exact hxs x (by simp)
  have haglen : ∀ p ∈ xs.zip gs, (activGradOf act W b p.1 p.2).length = outSize := by
    rintro ⟨x, g⟩ hp
    have hmem := List.of_mem_zip hp
    have hg : g.length = outSize := hgs _ hmem.2
    have hvm : (vecMatMul x W).length = outSize := vecMatMul_length _ _ _ hWr hWhead
    simp [activGradOf, length_addVec, hvm, hb, hg]
  have hpairslen : (xs.zip gs).length = xs.length := by
    rw [List.length_zip, hlen]
    omega
  have hGlen : (activGradMat act W b xs gs).length = xs.length := by
    rw [activGradMat, List.length_map, hpairslen]
  have hGrows : ∀ r ∈ activGradMat act W b xs gs, r.length = outSize := by
    intro r hr
    obtain ⟨p, hp, rfl⟩ := List.mem_map.mp hr
    exact haglen p hp
  have hGne : activGradMat act W b xs gs ≠ [] := by
    apply List.length_pos.mp
    rw [hGlen]
    exact hpos
  have hGhead : ((activGradMat act W b xs gs).headD []).length = outSize := by
    cases hG : activGradMat act W b xs gs with
    | nil => exact absurd hG hGne
    | cons r rs =>
      refine hGrows r ?_
      rw [hG]
      simp
  -- facts about the outer-product summands
  have hMslen : ∀ p ∈ xs.zip gs,
      (outerProd p.1 (activGradOf act W b p.1 p.2)).length =
        (zeroMat inSize outSize).length := by
    rintro ⟨x, g⟩ hp
    have hmem := List.of_mem_zip hp
    simp [outerProd, zeroMat, hxs _ hmem.1]
  have hMsrows : ∀ p ∈ xs.zip gs,
      ∀ r ∈ outerProd p.1 (activGradOf act W b p.1 p.2), r.length = outSize := by
    intro p hp r hr
    obtain ⟨c, hc, rfl⟩ := List.mem_map.mp hr
    simp [scaleVec, haglen p hp]
  have hArows : ∀ r ∈ zeroMat inSize outSize, r.length = outSize := by
    intro r hr
    rw [List.eq_of_mem_replicate hr]
    simp [zeroVec]
  -- the weight-gradient accumulation equals transpose(x)·activGrad
  have hwgrad :
      (xs.zip gs).foldl
        (fun acc p => matAdd acc (outerProd p.1 (activGradOf act W b p.1 p.2)))
        (zeroMat inSize outSize) =
      specMatMul (specTranspose xs) (activGradMat act W b xs gs) := by
    have hfl := foldl_matAdd_length
      (fun p : Vec × Vec => outerProd p.1 (activGradOf act W b p.1 p.2))
      (xs.zip gs) (zeroMat inSize outSize) hMslen
    beta_reduce at hfl
    refine List.ext_getElem ?_ ?_
    · rw [hfl]
      rw [specMatMul, List.length_map, specTranspose, List.length_map,
        List.length_range, hxshead]
      simp [zeroMat]
    · intro i h1 h2
      have hi : i < inSize := by
        rwa [hfl, zeroMat, List.length_replicate] at h1
      have hrowmem := List.getElem_mem h1
      have hrowlen := foldl_matAdd_rows outSize
        (fun p : Vec × Vec => outerProd p.1 (activGradOf act W b p.1 p.2))
        (xs.zip gs) (zeroMat inSize outSize) hMslen hMsrows hArows _ hrowmem
      have hrhs : (specMatMul (specTranspose xs) (activGradMat act W b xs gs))[i] =
          (List.range ((activGradMat act W b xs gs).headD []).length).map
            (fun j => (List.zipWith (fun x r => x * r.getD j 0)
              (xs.map (fun r => r.getD i 0)) (activGradMat act W b xs gs)).sum) := by
        simp only [specMatMul, specTranspose]
        rw [List.getElem_map]
        congr 1
        rw [List.getElem_map, List.getElem_range]
      refine List.ext_getElem ?_ ?_
      · rw [hrowlen, hrhs, List.length_map, List.length_range, hGhead]
      · intro j hj1 hj2
        have hj : j < outSize := by rwa [hrowlen] at hj1
        rw [← List.getD_eq_getElem _ 0 hj1, ← List.getD_eq_getElem _ 0 hj2,
          ← List.getD_eq_getElem _ ([] : Vec) h1, ← List.getD_eq_getElem _ ([] : Vec) h2]
        have hentry := foldl_matAdd_entry outSize
          (fun p : Vec × Vec => outerProd p.1 (activGradOf act W b p.1 p.2))
          (xs.zip gs) (zeroMat inSize outSize) hMslen hMsrows hArows i j
        beta_reduce at hentry
        rw [hentry]
        have hzero : ((zeroMat inSize outSize).getD i []).getD j 0 = 0 := by
          have hz1 : (zeroMat inSize outSize).getD i ([] : Vec) = zeroVec outSize := by
            rw [zeroMat, List.getD_eq_getElem _ _ (by simpa using hi)]
            exact List.getElem_replicate _ _
          rw [hz1, getD_zeroVec]
        rw [hzero, zero_add]
        have hrhsD : (specMatMul (specTranspose xs)
            (activGradMat act W b xs gs)).getD i ([] : Vec) =
            (List.range ((activGradMat act W b xs gs).headD []).length).map
              (fun j => (List.zipWith (fun x r => x * r.getD j 0)
                (xs.map (fun r => r.getD i 0)) (activGradMat act W b xs gs)).sum) := by
          rw [List.getD_eq_getElem _ _ h2]
          exact hrhs
        rw [hrhsD]
        rw [List.getD_eq_getElem _ _
          (by rw [List.length_map, List.length_range, hGhead]; omega : j <
            ((List.range ((activGradMat act W b xs gs).headD []).length).map
              (fun j => (List.zipWith (fun x r => x * r.getD j 0)
                (xs.map (fun r => r.getD i 0)) (activGradMat act W b xs gs)).sum)).length)]
        rw [List.getElem_map, List.getElem_range, List.zipWith_map_left]
        rw [activGradMat, zipWith_map_zip]
        congr 1
        refine List.map_congr_left ?_
        intro p _
        exact getD_outerProd p.1 (activGradOf act W b p.1 p.2) i j
  -- the bias-gradient accumulation equals columnSum(activGrad)
  have hbgrad :
      (xs.zip gs).foldl
        (fun acc p => addVec acc (activGradOf act W b p.1 p.2)) (zeroVec outSize) =
      specColumnSum outSize (activGradMat act W b xs gs) := by
    have hlenacc : ∀ p ∈ xs.zip gs,
        (activGradOf act W b p.1 p.2).length = (zeroVec outSize).length := by
      intro p hp
      rw [haglen p hp]
      simp [zeroVec]
    have hfl := foldl_addVec_length
      (fun p : Vec × Vec => activGradOf act W b p.1 p.2) (xs.zip gs)
      (zeroVec outSize) hlenacc
    beta_reduce at hfl
    refine List.ext_getElem ?_ ?_
    · rw [hfl]
      rw [specColumnSum, List.length_map, List.length_range]
      simp [zeroVec]
    · intro j hj1 hj2
      have hj : j < outSize := by
        rwa [hfl, zeroVec, List.length_replicate] at hj1
      rw [← List.getD_eq_getElem _ 0 hj1]
      have hentry := foldl_addVec_getD
        (fun p : Vec × Vec => activGradOf act W b p.1 p.2) (xs.zip gs)
        (zeroVec outSize) hlenacc j
      beta_reduce at hentry
      rw [hentry]
      rw [getD_zeroVec, zero_add]
      simp only [specColumnSum]
      rw [List.getElem_map, List.getElem_range]
      rw [activGradMat, List.map_map]
      rfl
  -- the per-example input gradients equal activGrad·transpose(W)
  have hprev :
      (xs.zip gs).map (fun p => matVecMul W (activGradOf act W b p.1 p.2)) =
      specMatMul (activGradMat act W b xs gs) (specTranspose W) := by
    have hWthead : ((specTranspose W).headD []).length = inSize := by
      rw [specTranspose, hWhead]
      cases hr : List.range outSize with
      | nil =>
        exfalso
        have : (List.range outSize).length = 0 := by rw [hr]; rfl
        simp at this
        omega
      | cons k ks => simp [hW]
    rw [specMatMul, activGradMat, List.map_map]
    refine List.map_congr_left ?_
    intro p hp
    simp only [Function.comp]
    refine List.ext_getElem ?_ ?_
    · rw [matVecMul, List.length_map, hW, List.length_map, List.length_range, hWthead]
    · intro i h1 h2
      have hi : i < inSize := by
        rwa [matVecMul, List.length_map, hW] at h1
      simp only [matVecMul]
      rw [List.getElem_map, List.getElem_map, List.getElem_range]
      have hiW : i < W.length := by omega
      have hrow : W[i] ∈ W := List.getElem_mem hiW
      have hrlen : (W[i]).length = outSize := hWr _ hrow
      congr 1
      -- the two per-entry summand lists are equal
      rw [specTranspose, hWhead, List.zipWith_map_right]
      refine List.ext_getElem ?_ ?_
      · rw [List.length_zipWith, List.length_zipWith]
        rw [hrlen, haglen p hp, List.length_range]
      · intro k hk1 hk2
        have hk : k < outSize := by
          rwa [List.length_zipWith, hrlen, haglen p hp, Nat.min_self] at hk1
        rw [List.getElem_zipWith, List.getElem_zipWith, List.getElem_range]
        rw [getD_map_col]
        rw [List.getD_eq_getElem _ _ (by omega : i < W.length)]
        rw [List.getD_eq_getElem _ _ (by rw [hrlen]; omega)]
        exact mul_comm _ _
  -- assemble
  show (wOpt W _, bOpt b _, _) = _
  rw [hwgrad, hbgrad, hprev]

/-- Witness for `c5_dense_backward`: a `Dense(2,1)` layer with identity
activation, weights `[[5],[7]]`, bias `[3]`, one datapoint `[1,2]` and
upstream gradient `[4]`. -/
theorem c5_dense_backward_witness :
    denseBackward 2 1 FJML.linearQ [[5], [7]] [3]
        (fun _ g => g) (fun _ g => g) [[1, 2]] [[4]] =
      (divMat (specMatMul (specTranspose [[1, 2]])
          (activGradMat FJML.linearQ [[5], [7]] [3] [[1, 2]] [[4]]))
        ((List.length ([[1, 2]] : List Vec) : ℚ)),
       divVec (specColumnSum 1
          (activGradMat FJML.linearQ [[5], [7]] [3] [[1, 2]] [[4]]))
        ((List.length ([[1, 2]] : List Vec) : ℚ)),
       specMatMul (activGradMat FJML.linearQ [[5], [7]] [3] [[1, 2]] [[4]])
         (specTranspose [[5], [7]])) := by
  exact c5_dense_backward 2 1 FJML.linearQ [[5], [7]] [3]
    (fun _ g => g) (fun _ g => g) [[1, 2]] [[4]]
    (by decide) (by decide) (by decide) (by decide) (by decide)
    (by decide) (by decide) (by decide) (by decide)

end FJML.Layers


namespace FJML.Loss

theorem celRowMax_shift (prow : List ℚ) (c : ℚ) (h : prow ≠ []) :
    celRowMax (prow.map (fun x => x + c)) = celRowMax prow + c := by
  cases prow with
  | nil => exact absurd rfl h
  | cons p rest =>
    simp only [celRowMax, List.map_cons, List.drop_succ_cons, List.drop_zero,
      List.headD_cons]
    induction rest generalizing p with
    | nil => simp
    | cons q qs ih =>
      simp only [List.map_cons, List.foldl_cons]
      rw [max_add_add_right]
      exact ih (max p q) (by simp)

theorem celLossRow_shift (E L : ℚ → ℚ) (lrow prow : List ℚ) (c : ℚ) :
    celLossRow E L lrow (prow.map (fun x => x + c)) = celLossRow E L lrow prow := by
  cases hp : prow with
  | nil => simp [celLossRow]
  | cons p rest =>
    rw [← hp]
    have hne : prow ≠ [] := by rw [hp]; simp
    simp only [celLossRow, celRowMax_shift prow c hne]
    have harg : ∀ x : ℚ, x + c - (celRowMax prow + c) = x - celRowMax prow := by
      intro x; ring
    rw [List.map_map]
    have hden : ((fun p => E (p - (celRowMax prow + c))) ∘ (fun x => x + c)) =
        fun p => E (p - celRowMax prow) := by
      funext x
      simp [Function.comp, harg]
    rw [hden]
    rw [List.zipWith_map_right]
    have hfun : (fun (l x : ℚ) => -l * (x + c - (celRowMax prow + c)) +
        l * L ((prow.map (fun p => E (p - celRowMax prow))).sum)) =
        fun l x => -l * (x - celRowMax prow) +
          l * L ((prow.map (fun p => E (p - celRowMax prow))).sum) := by
      funext l x
      rw [harg]
    rw [hfun]

theorem celDerivRow_shift (E : ℚ → ℚ) (lrow prow : List ℚ) (c : ℚ) :
    celDerivRow E lrow (prow.map (fun x => x + c)) = celDerivRow E lrow prow := by
  cases hp : prow with
  | nil => simp [celDerivRow]
  | cons p rest =>
    rw [← hp]
    have hne : prow ≠ [] := by rw [hp]; simp
    simp only [celDerivRow, celRowMax_shift prow c hne]
    have harg : ∀ x : ℚ, x + c - (celRowMax prow + c) = x - celRowMax prow := by
      intro x; ring
    rw [List.map_map]
    have hden : ((fun p => E (p - (celRowMax prow + c))) ∘ (fun x => x + c)) =
        fun p => E (p - celRowMax prow) := by
      funext x
      simp [Function.comp, harg]
    rw [hden]
    rw [List.zipWith_map_right]
    have hfun : (fun (l x : ℚ) => -l + E (x + c - (celRowMax prow + c)) /
        ((prow.map (fun p => E (p - celRowMax prow))).sum)) =
        fun l x => -l + E (x - celRowMax prow) /
          ((prow.map (fun p => E (p - celRowMax prow))).sum) := by
      funext l x
      rw [harg]
    rw [hfun]

theorem celDerivRow_softmax (E : ℚ → ℚ)
    (hE : ∀ a b : ℚ, E (a - b) = E a / E b) (hpos : ∀ x : ℚ, 0 < E x)
    (lrow prow : List ℚ) :
    celDerivRow E lrow prow =
      List.zipWith (fun l s => s - l) lrow (specSoftmaxRow E prow) := by
  cases hp : prow with
  | nil => simp [celDerivRow, specSoftmaxRow]
  | cons p rest =>
    rw [← hp]
    have hne : prow ≠ [] := by rw [hp]; simp
    have hS : (0 : ℚ) < (prow.map E).sum := by
      refine List.sum_pos _ ?_ (by simp [hp])
      intro x hx
      obtain ⟨y, _, rfl⟩ := List.mem_map.mp hx
      exact hpos y
    have hEm : E (celRowMax prow) ≠ 0 := ne_of_gt (hpos _)
    have hden : (prow.map (fun q => E (q - celRowMax prow))).sum =
        (prow.map E).sum / E (celRowMax prow) := by
      have : (fun q => E (q - celRowMax prow)) =
          fun q => E q * (E (celRowMax prow))⁻¹ := by
        funext q
        rw [hE, div_eq_mul_inv]
      rw [this, List.sum_map_mul_right, ← div_eq_mul_inv]
    simp only [celDerivRow, specSoftmaxRow]
    rw [List.zipWith_map_right]
    have hfun : (fun (l x : ℚ) => -l + E (x - celRowMax prow) /
        ((prow.map (fun p => E (p - celRowMax prow))).sum)) =
        fun l x => E x / (prow.map E).sum - l := by
      funext l x
      have hS0 : (List.map E prow).sum ≠ 0 := ne_of_gt hS
      rw [hden, hE]
      field_simp
      ring
    rw [hfun]

/-- **C8.** The `from_logits` crossentropy of `src/src/loss.cpp:153-199`
is translation invariant — adding one constant `c` to every logit leaves
both the loss and the gradient unchanged, for *any* elementwise function
`E` in place of `exp`, because everything is computed from `p - rowMax`
and the row max shifts with the row — and, whenever `E` satisfies the
exponential law `E(a-b) = E(a)/E(b)` and is positive (as `exp` does),
its gradient equals `softmax(logits) − label` elementwise. -/
theorem c8_crossentropy_logits (E L : ℚ → ℚ)
    (labels preds : List (List ℚ)) (c : ℚ)
    (hE : ∀ a b : ℚ, E (a - b) = E a / E b) (hpos : ∀ x : ℚ, 0 < E x) :
    celLoss E L labels (preds.map (List.map (fun x => x + c))) =
      celLoss E L labels preds ∧
    celDeriv E labels (preds.map (List.map (fun x => x + c))) =
      celDeriv E labels preds ∧
    celDeriv E labels preds =
      List.zipWith (fun lrow prow =>
        List.zipWith (fun l s => s - l) lrow (specSoftmaxRow E prow))
        labels preds := by
  refine ⟨?_, ?_, ?_⟩
  · unfold celLoss
    rw [List.zipWith_map_right]
    have hfun : (fun (lrow prow : List ℚ) =>
        celLossRow E L lrow (prow.map (fun x => x + c))) = celLossRow E L := by
      funext lrow prow
      exact celLossRow_shift E L lrow prow c
    rw [hfun]
  · unfold celDeriv
    rw [List.zipWith_map_right]
    have hfun : (fun (lrow prow : List ℚ) =>
        celDerivRow E lrow (prow.map (fun x => x + c))) = celDerivRow E := by
      funext lrow prow
      exact celDerivRow_shift E lrow prow c
    rw [hfun]
  · unfold celDeriv
    have hfun : celDerivRow E = fun lrow prow =>
        List.zipWith (fun l s => s - l) lrow (specSoftmaxRow E prow) := by
      funext lrow prow
      exact celDerivRow_softmax E hE hpos lrow prow
    rw [hfun]

theorem c8_crossentropy_logits_witness :
    celLoss (fun _ => 1) (fun x => x) [[1, 0]]
        (([[3, 5]] : List (List ℚ)).map (List.map (fun x => x + 7))) =
      celLoss (fun _ => 1) (fun x => x) [[1, 0]] [[3, 5]] ∧
    celDeriv (fun _ => 1) [[1, 0]]
        (([[3, 5]] : List (List ℚ)).map (List.map (fun x => x + 7))) =
      celDeriv (fun _ => 1) [[1, 0]] [[3, 5]] ∧
    celDeriv (fun _ => 1) [[1, 0]] [[3, 5]] =
      List.zipWith (fun lrow prow =>
        List.zipWith (fun l s => s - l) lrow (specSoftmaxRow (fun _ => 1) prow))
        [[1, 0]] [[3, 5]] :=
  c8_crossentropy_logits (fun _ => 1) (fun x => x) [[1, 0]] [[3, 5]] 7
    (fun _ _ => by norm_num) (fun _ => by norm_num)

end FJML.Loss

namespace FJML.Layers

theorem readNums_append (l : List ℚ) (rest : List FileTok) :
    readNums l.length (l.map FileTok.num ++ rest) = some (l, rest) := by
  induction l with
  | nil => rfl
  | cons q qs ih => simp [readNums, ih]

theorem toRows_flat (o : ℕ) (rows : List (List ℚ)) (h : ∀ r ∈ rows, r.length = o) :
    toRows rows.length o rows.flatten = rows := by
  induction rows with
  | nil => rfl
  | cons r rs ih =>
    have hr : r.length = o := h r (by simp)
    simp only [List.length_cons, List.flatten_cons, toRows]
    rw [← hr, List.take_left, List.drop_left]
    rw [hr, ih (fun s hs => h s (by simp [hs]))]

theorem length_flat (o : ℕ) (rows : List (List ℚ)) (h : ∀ r ∈ rows, r.length = o) :
    rows.flatten.length = rows.length * o := by
  induction rows with
  | nil => simp
  | cons r rs ih =>
    have hr : r.length = o := h r (by simp)
    simp only [List.flatten_cons, List.length_append, List.length_cons, hr,
      ih (fun s hs => h s (by simp [hs]))]
    ring

theorem flat_map_num (rs : List (List ℚ)) :
    (rs.map (fun row => row.map (fun w => FileTok.num (sig6 w)))).flatten =
      ((rs.map (List.map sig6)).flatten).map FileTok.num := by
  induction rs with
  | nil => rfl
  | cons r rest ih => simp [ih]

theorem sig6_zero : sig6 0 = 0 := by simp [sig6]

theorem sig6_lossy : sig6 (1234567/1000000) = 123457/100000 := by
  have hlog : Int.log 10 |(1234567/1000000 : ℚ)| = 0 := by
    rw [abs_of_pos (by norm_num)]
    rw [Int.log_of_one_le_right _ (by norm_num)]
    have hfl : ⌊(1234567/1000000 : ℚ)⌋₊ = 1 := by
      rw [Nat.floor_eq_iff (by norm_num)]
      norm_num
    rw [hfl]
    simp
  rw [sig6, if_neg (by norm_num), hlog]
  have hround : round ((1234567/1000000 : ℚ) * (10 : ℚ) ^ (5 - 0 : ℤ)) = 123457 := by
    rw [round_eq]
    have : (1234567/1000000 : ℚ) * (10 : ℚ) ^ (5 - 0 : ℤ) + 1/2 = 1234572/10 := by
      norm_num
    rw [this]
    rw [Int.floor_eq_iff]
    constructor <;> norm_num
  rw [hround]
  norm_num

/-- **C9 (counterexample).** The round-trip is not bit-identical:
`Dense::save` writes values through the stream's default
6-significant-digit formatting, so a linear `Dense(1,1)` layer with
weight `1.234567` reloads with weight `1.23457`. -/
theorem c9_save_load_not_bit_identical :
    loadDense (saveDense ⟨"linear", 1, 1, [[1234567/1000000]], [0]⟩) =
      some ⟨"linear", 1, 1, [[123457/100000]], [0]⟩ ∧
    ((123457 : ℚ)/100000) ≠ 1234567/1000000 := by
  constructor
  · have hsave : saveDense ⟨"linear", 1, 1, [[1234567/1000000]], [0]⟩ =
        [FileTok.str "Dense", FileTok.str "linear", FileTok.nat 1, FileTok.nat 1,
         FileTok.num (sig6 (1234567/1000000)), FileTok.num (sig6 0)] := by
      simp [saveDense]
    rw [hsave, sig6_lossy, sig6_zero]
    simp [loadDense, activationNames, readNums, toRows]
  · norm_num

/-- **C9 (amended).** Saving a Dense layer and loading it back
reproduces the activation name and both sizes exactly, and reproduces
every weight and bias entry (in row-major order) through the stream's
6-significant-digit rounding `sig6` — exactly, whenever the entries are
representable in 6 significant decimal digits; and loading a serialized
Dense layer whose activation name is not among
`Activations::activations` fails with the `Unknown activation function`
error (modelled as `none`). -/
theorem c9_dense_save_load (d : DenseL)
    (hw : d.weights.length = d.inputSize)
    (hwr : ∀ r ∈ d.weights, r.length = d.outputSize)
    (hb : d.bias.length = d.outputSize) :
    (d.activName ∈ activationNames →
      loadDense (saveDense d) = some
        ⟨d.activName, d.inputSize, d.outputSize,
         d.weights.map (List.map sig6), d.bias.map sig6⟩) ∧
    (d.activName ∉ activationNames → loadDense (saveDense d) = none) := by
  have hrect : ∀ r ∈ d.weights.map (List.map sig6), r.length = d.outputSize := by
    intro r hr
    obtain ⟨s, hs, rfl⟩ := List.mem_map.mp hr
    simp [hwr s hs]
  have hflatlen : ((d.weights.map (List.map sig6)).flatten).length =
      d.inputSize * d.outputSize := by
    rw [length_flat d.outputSize _ hrect, List.length_map, hw]
  have hW : (d.weights.map (fun row => row.map (fun w => FileTok.num (sig6 w)))).flatten =
      ((d.weights.map (List.map sig6)).flatten).map FileTok.num := flat_map_num _
  have hB : d.bias.map (fun v => FileTok.num (sig6 v)) =
      (d.bias.map sig6).map FileTok.num := by
    rw [List.map_map]
    rfl
  have hread1 : readNums (d.inputSize * d.outputSize)
      (((d.weights.map (List.map sig6)).flatten).map FileTok.num ++
        (d.bias.map sig6).map FileTok.num) =
      some ((d.weights.map (List.map sig6)).flatten,
        (d.bias.map sig6).map FileTok.num) := by
    rw [← hflatlen]
    exact readNums_append _ _
  have hread2 : readNums d.outputSize ((d.bias.map sig6).map FileTok.num) =
      some (d.bias.map sig6, []) := by
    have h1 := readNums_append (d.bias.map sig6) []
    rw [List.append_nil, List.length_map, hb] at h1
    exact h1
  have hrows : toRows d.inputSize d.outputSize
      ((d.weights.map (List.map sig6)).flatten) = d.weights.map (List.map sig6) := by
    have h1 := toRows_flat d.outputSize _ hrect
    rwa [List.length_map, hw] at h1
  constructor
  · intro hmem
    simp only [saveDense, loadDense, hW, hB, List.cons_append, List.nil_append]
    rw [if_pos hmem, hread1]
    simp only [Option.some_bind]
    rw [hread2]
    simp only [Option.some_bind]
    rw [hrows]
  · intro hmem
    simp only [saveDense, loadDense, hW, hB, List.cons_append, List.nil_append]
    rw [if_neg hmem]

/-- Witness for `c9_dense_save_load`: a relu `Dense(1,2)` layer with
weights `[[5, 25]]` and bias `[3, 7]`. -/
theorem c9_dense_save_load_witness :
    loadDense (saveDense ⟨"relu", 1, 2, [[5, 25]], [3, 7]⟩) =
      some ⟨"relu", 1, 2, ([[5, 25]] : List (List ℚ)).map (List.map sig6),
        ([3, 7] : List ℚ).map sig6⟩ :=
  (c9_dense_save_load ⟨"relu", 1, 2, [[5, 25]], [3, 7]⟩
    (by decide) (by decide) (by decide)).1 (by decide)

end FJML.Layers

/-- **C10.** `MLP::calc_loss` (`src/src/mlp.cpp:76-78`) returns
`loss_fn.calc_loss(run(x_test), y_test) / x_test.shape[0]`: instantiated
with the (asymmetric) crossentropy loss `Σ -label_i·log(pred_i)`, the
result is `Σ -run(x)_i · log(y_i)` divided by the sample count — the
network output fills the loss's label slot, the user-supplied `y_test`
fills the prediction slot (the `log` lands on `y_test`), and the summed
loss is divided by `x_test.shape[0]`. -/
theorem c10_calc_loss_swaps_label_and_pred (L : ℚ → ℚ)
    (layers : List (FJML.TensorQ → FJML.TensorQ)) (x y : FJML.TensorQ)
    (h : (FJML.mlpRun layers x).size = y.size) :
    FJML.mlpCalcLoss (FJML.crossentropyPlain L) layers x y =
      some ((List.zipWith (fun o t => -o * L t)
          (FJML.mlpRun layers x).data y.data).sum /
        (x.shape.headD 0 : ℚ)) := by
  simp [FJML.mlpCalcLoss, FJML.crossentropyPlain, h]

/-- Witness for `c10_calc_loss_swaps_label_and_pred`: the empty network
on `x = [[1],[2]]`, `y = [[3],[4]]` with `log` taken as the identity
gives `(-1·3 + -2·4)/2 = -11/2`. -/
theorem c10_calc_loss_witness :
    FJML.mlpCalcLoss (FJML.crossentropyPlain (fun t => t)) []
        ⟨[2, 1], [1, 2]⟩ ⟨[2, 1], [3, 4]⟩ = some (-11/2) := by
  have h := c10_calc_loss_swaps_label_and_pred (fun t => t) []
    ⟨[2, 1], [1, 2]⟩ ⟨[2, 1], [3, 4]⟩ rfl
  rw [h]
  norm_num [FJML.mlpRun, List.zipWith]
